import Mathlib

/-!
Verification of the StreamDeck worker (workers/streamdeck-worker.js) against
its specification.  Each definition below is a shallow embedding of one
function of the source file; the theorems at the end settle the spec's
claims about them.
-/

namespace StreamDeck

/-!
## Auth gate (signJWT / verifyJWT)

Times are in milliseconds.  `signJWT` floors `Date.now()/1000` to whole
seconds (`Math.floor`) and stores `iat` and `exp = iat + ttl` in the payload.
`verifyJWT` compares `payload.exp < Date.now()/1000` without flooring; over
the integers that comparison is equivalent to `payload.exp * 1000 < nowMs`,
which is how it is embedded here.  The HMAC-SHA256 signature is a crypto
primitive outside the model; its verification outcome enters as the boolean
`sigOk` (the source throws "bad signature" when it is false, before the
expiry check).
-/

structure JwtPayload where
  role : String
  iat : Nat
  exp : Nat
  deriving Repr, DecidableEq

def signJWT (role : String) (nowMs : Nat) (ttl : Nat) : JwtPayload :=
  { role := role, iat := nowMs / 1000, exp := nowMs / 1000 + ttl }

inductive VerifyResult where
  | badSignature
  | expired
  | ok (p : JwtPayload)
  deriving Repr, DecidableEq

def verifyJWT (sigOk : Bool) (p : JwtPayload) (nowMs : Nat) : VerifyResult :=
  if !sigOk then .badSignature
  else if p.exp * 1000 < nowMs then .expired
  else .ok p

/-!
## Retry fetcher (fetchWithRetry)

The source loops `for (let i = 0; i < retries; i++)`.  A successful
response (`res.ok`, i.e. status in [200, 300)) is returned; a 429 waits
`2^i * 1000` ms and retries; any other status throws `HTTP status: body`,
which the enclosing catch of the same try block rethrows only when
`i === retries - 1` and otherwise waits the same backoff and retries; a
network-level failure is handled by the same catch.  After the loop,
`Max retries exceeded` is thrown.  The embedding records each backoff wait
(in ms) in a trace list; `fuel` counts the iterations still to run, so the
current iteration is the last one exactly when `fuel = 0` afterwards.
-/

structure HttpResp where
  status : Nat
  body : String
  deriving Repr, DecidableEq

inductive FetchOutcome where
  | response (r : HttpResp)
  | networkFailure (msg : String)

def respOk (r : HttpResp) : Bool := 200 ≤ r.status && r.status < 300

inductive RetryResult where
  | returned (r : HttpResp) (delaysMs : List Nat)
  | thrown (msg : String) (delaysMs : List Nat)
  deriving Repr, DecidableEq

def httpErrMsg (r : HttpResp) : String :=
  "HTTP " ++ toString r.status ++ ": " ++ r.body

def backoffMs (i : Nat) : Nat := 2 ^ i * 1000

def fetchLoop (f : Nat → FetchOutcome) : Nat → Nat → List Nat → RetryResult
  | _, 0, delays => .thrown "Max retries exceeded" delays
  | i, fuel + 1, delays =>
    match f i with
    | .networkFailure msg =>
      if fuel = 0 then .thrown msg delays
      else fetchLoop f (i + 1) fuel (delays ++ [backoffMs i])
    | .response r =>
      if respOk r then .returned r delays
      else if r.status = 429 then fetchLoop f (i + 1) fuel (delays ++ [backoffMs i])
      else if fuel = 0 then .thrown (httpErrMsg r) delays
      else fetchLoop f (i + 1) fuel (delays ++ [backoffMs i])

def fetchWithRetry (f : Nat → FetchOutcome) (retries : Nat) : RetryResult :=
  fetchLoop f 0 retries []

/-- A server that answers 500 on the first attempt and 200 afterwards. -/
def srvErrThenOk : Nat → FetchOutcome := fun i =>
  if i = 0 then .response ⟨500, "boom"⟩ else .response ⟨200, "fine"⟩

/-- A server that answers 429 on the first three attempts and 200 afterwards. -/
def srv429x3 : Nat → FetchOutcome := fun i =>
  if i < 3 then .response ⟨429, "rate limited"⟩ else .response ⟨200, "payload"⟩

/-- A server that answers the same non-success status on every attempt. -/
def srvConstErr (st : Nat) (b : String) : Nat → FetchOutcome :=
  fun _ => .response ⟨st, b⟩

/-!
## Quota enforcer (enforceQuota)

The source pages through `bucket.list` until `truncated` is false,
accumulating `total = additionalSize + Σ obj.size` and collecting every
object; the bucket is modelled as the list of listing pages, so the
collected items are `pages.flatten`.  Within budget it returns
`{deletedCount: 0, freedSpace: 0}` at once; otherwise it sorts the items
ascending by upload time (`a.uploaded.getTime() - b.uploaded.getTime()`)
and deletes oldest-first while `total > maxBytes`.  `QuotaResult.deleted`
records the keys passed to `bucket.delete` in order, and `remaining` the
bucket contents left afterwards (contents, not a bucket ordering).
-/

structure StoredObj where
  key : String
  size : Nat
  uploaded : Nat
  deriving Repr, DecidableEq

def sumSizes (l : List StoredObj) : Nat := (l.map StoredObj.size).sum

def insertByUpload (o : StoredObj) : List StoredObj → List StoredObj
  | [] => [o]
  | x :: xs =>
    if o.uploaded ≤ x.uploaded then o :: x :: xs else x :: insertByUpload o xs

def sortByUpload : List StoredObj → List StoredObj
  | [] => []
  | x :: xs => insertByUpload x (sortByUpload xs)

structure QuotaResult where
  deletedCount : Nat
  freedSpace : Nat
  deleted : List StoredObj
  remaining : List StoredObj
  deriving Repr, DecidableEq

def evictLoop (maxBytes : Nat) : Nat → List StoredObj → QuotaResult
  | _, [] => ⟨0, 0, [], []⟩
  | total, o :: rest =>
    if total ≤ maxBytes then ⟨0, 0, [], o :: rest⟩
    else
      let r := evictLoop maxBytes (total - o.size) rest
      ⟨r.deletedCount + 1, r.freedSpace + o.size, o :: r.deleted, r.remaining⟩

def enforceQuota (pages : List (List StoredObj)) (maxBytes additionalSize : Nat) :
    QuotaResult :=
  let items := pages.flatten
  let total := additionalSize + sumSizes items
  if total ≤ maxBytes then ⟨0, 0, [], items⟩
  else evictLoop maxBytes total (sortByUpload items)

/-!
## Range server (GET /media/ range branch)

After the object is found, the source parses `Range: bytes=start-end` into
`start = parseInt(parts[0])` and `end = parts[1] ? parseInt(parts[1]) :
obj.size - 1`; a NaN start (or a missing/empty end part) is modelled by
`Option`.  Validation checks only `start`: NaN, negative or `≥ obj.size`
answers 416 with `Content-Range: bytes */size`.  Otherwise `validEnd =
min(end, size - 1)`, `chunkSize = validEnd - start + 1`; the store is asked
for `{offset: start, length: chunkSize}` (recorded as `storeOffset` /
`storeLength`); if that returns no object the source answers a bare 416
(`rangedOk` models the store collaborator's answer), else 206 with
`Content-Range: bytes start-validEnd/size` and `Content-Length: chunkSize`.
-/

structure MediaResp where
  status : Nat
  contentRange : Option String
  contentLength : Option Int
  storeOffset : Option Int
  storeLength : Option Int
  deriving Repr, DecidableEq

def range416 (size : Nat) : MediaResp :=
  ⟨416, some ("bytes */" ++ toString size), none, none, none⟩

def serveMediaRange (size : Nat) (startP : Option Int) (endP : Option Int)
    (rangedOk : Bool) : MediaResp :=
  let e0 : Int :=
    match endP with
    | some e => e
    | none => (size : Int) - 1
  match startP with
  | none => range416 size
  | some start =>
    if start < 0 ∨ (size : Int) ≤ start then range416 size
    else
      let validEnd := min e0 ((size : Int) - 1)
      let chunkSize := validEnd - start + 1
      if rangedOk then
        ⟨206,
          some ("bytes " ++ toString start ++ "-" ++ toString validEnd ++ "/" ++
            toString size),
          some chunkSize, some start, some chunkSize⟩
      else ⟨416, none, none, none, none⟩

/-!
## Room synchronizer (PartyDO)

The canonical state `this.stateData` is a JS object; the message handler
does `Object.assign(this.stateData, JSON.parse(evt.data))` — a field-level
overwrite — then `await this.persist()` (`storage.put("state", stateData)`)
and only then broadcasts.  The object is modelled as an association list of
fields in insertion order: `setField` updates an existing key in place or
appends a new one, exactly like JS property assignment, and `assignFields`
applies the update's fields left to right like `Object.assign`.  A message
whose `JSON.parse` throws is caught, logged and changes nothing.
-/

def setField {α : Type} : List (String × α) → String → α → List (String × α)
  | [], k, v => [(k, v)]
  | (k0, v0) :: rest, k, v =>
    if k0 = k then (k0, v) :: rest else (k0, v0) :: setField rest k v

def assignFields {α : Type} (st upd : List (String × α)) : List (String × α) :=
  upd.foldl (fun acc kv => setField acc kv.1 kv.2) st

def lookupField {α : Type} : List (String × α) → String → Option α
  | [], _ => none
  | (k0, v) :: rest, k => if k0 = k then some v else lookupField rest k

/-- The second option when the first is absent (per-field last-writer-wins). -/
def firstSome {α : Type} : Option α → Option α → Option α
  | some v, _ => some v
  | none, b => b

structure RoomDO (α : Type) where
  stateData : List (String × α)
  storage : Option (List (String × α))
  deriving Repr, DecidableEq

inductive RoomMsg (α : Type) where
  | ok (upd : List (String × α))
  | malformed
  deriving Repr, DecidableEq

def handleMessage {α : Type} (room : RoomDO α) : RoomMsg α → RoomDO α
  | .malformed => room
  | .ok upd =>
    let merged := assignFields room.stateData upd
    ⟨merged, some merged⟩

def runUpdates {α : Type} (room : RoomDO α) (msgs : List (RoomMsg α)) : RoomDO α :=
  msgs.foldl handleMessage room

/-!
## Broadcast (PartyDO.broadcast)

`broadcast(except)` walks `this.sessions`, skips the sender (`s !== except`,
modelled by session ids), and wraps each `s.send(msg)` in its own
try/catch: a throwing send is logged via `console.error` and the loop
continues.  `sendOk` models whether a session's `send` throws; the result
records which sessions received the message and which failures were logged.
The function itself never throws.
-/

structure Session where
  id : Nat
  sendOk : Bool
  deriving Repr, DecidableEq

structure BroadcastLog where
  delivered : List Nat
  logged : List Nat
  deriving Repr, DecidableEq

def broadcast (sessions : List Session) (exceptId : Nat) : BroadcastLog :=
  match sessions with
  | [] => ⟨[], []⟩
  | s :: rest =>
    let r := broadcast rest exceptId
    if s.id = exceptId then r
    else if s.sendOk then ⟨s.id :: r.delivered, r.logged⟩
    else ⟨r.delivered, s.id :: r.logged⟩

/-- Concrete room for the C1 witness. -/
def roomW : RoomDO Nat := ⟨[("timestamp", 0), ("paused", 1)], none⟩

/-- Concrete update sequence for the C1 witness. -/
def updsW : List (List (String × Nat)) :=
  [[("timestamp", 5)], [("mainUrl", 7), ("timestamp", 9)]]

/-!
## Proofs

Helper lemmas first, then one theorem per claim.
-/

lemma fetchLoop_429_step (i fuel : Nat) (delays : List Nat) (h : i < 3) :
    fetchLoop srv429x3 i (fuel + 1) delays =
      fetchLoop srv429x3 (i + 1) fuel (delays ++ [backoffMs i]) := by
  simp [fetchLoop, srv429x3, h, respOk]

lemma fetchLoop_429_done (fuel : Nat) (delays : List Nat) :
    fetchLoop srv429x3 3 (fuel + 1) delays = .returned ⟨200, "payload"⟩ delays := by
  simp [fetchLoop, srv429x3, respOk]

lemma fetchLoop_constErr (st : Nat) (b : String)
    (hok : ¬ (200 ≤ st ∧ st < 300)) (h429 : st ≠ 429) :
    ∀ (fuel i : Nat) (delays : List Nat),
      fetchLoop (srvConstErr st b) i (fuel + 1) delays =
        .thrown (httpErrMsg ⟨st, b⟩)
          (delays ++ (List.range' i fuel).map backoffMs) := by
  intro fuel
  induction fuel with
  | zero =>
    intro i delays
    have hok' : respOk ⟨st, b⟩ = false := by
      simp [respOk]
      omega
    simp [fetchLoop, srvConstErr, hok', h429]
  | succ fuel ih =>
    intro i delays
    have hok' : respOk ⟨st, b⟩ = false := by
      simp [respOk]
      omega
    rw [fetchLoop]
    simp only [srvConstErr, hok', h429, Bool.false_eq_true, if_false,
      Nat.succ_ne_zero, ite_false]
    rw [ih (i + 1) (delays ++ [backoffMs i])]
    simp [List.range']

/-- C7: `fetchWithRetry` waits `2^attempt` seconds (recorded in ms) before
each retry caused by a 429, and against a server answering 429 three times
then 200 it returns the successful response after exactly the three backoff
waits `2^0, 2^1, 2^2` seconds — for every attempt budget of at least four. -/
theorem fetchWithRetry_backoff_429 (n : Nat) :
    fetchWithRetry srv429x3 (n + 4) =
      .returned ⟨200, "payload"⟩ [2 ^ 0 * 1000, 2 ^ 1 * 1000, 2 ^ 2 * 1000] := by
  have h4 : n + 4 = ((n + 1) + 1) + 1 + 1 := by omega
  rw [fetchWithRetry, h4, fetchLoop_429_step 0 _ _ (by omega)]
  rw [show (0 : Nat) + 1 = 1 from rfl, fetchLoop_429_step 1 _ _ (by omega)]
  rw [show (1 : Nat) + 1 = 2 from rfl, fetchLoop_429_step 2 _ _ (by omega)]
  rw [show (2 : Nat) + 1 = 3 from rfl, fetchLoop_429_done]
  simp [backoffMs]

/-- C6 (counterexample): a 500 on the first of three attempts is retried —
the call returns the later 200 after one backoff wait instead of raising
`HTTP 500: boom`, because the thrown error is caught by the same loop's
catch block whenever attempts remain. -/
theorem fetchWithRetry_error_not_raised_cex :
    fetchWithRetry srvErrThenOk 3 = .returned ⟨200, "fine"⟩ [1000] ∧
    fetchWithRetry srvErrThenOk 3 ≠ .thrown (httpErrMsg ⟨500, "boom"⟩) [] := by
  constructor
  · decide
  · decide

/-- C6 (amended): on a non-success status other than 429 the loop builds the
error `HTTP status: body`, but the error reaches the caller only when it
happens on the final attempt; earlier attempts wait the backoff and retry.
Against a server that always answers such a status, the call therefore ends
with that error after `n` backoff waits for an attempt budget of `n + 1`. -/
theorem fetchWithRetry_httpError_final (st : Nat) (b : String) (n : Nat)
    (hok : ¬ (200 ≤ st ∧ st < 300)) (h429 : st ≠ 429) :
    fetchWithRetry (srvConstErr st b) (n + 1) =
      .thrown (httpErrMsg ⟨st, b⟩) ((List.range n).map backoffMs) := by
  rw [fetchWithRetry, fetchLoop_constErr st b hok h429 n 0 []]
  simp [List.range_eq_range']

/-- Witness for C6's amended claim at status 500, body "x", three attempts. -/
theorem fetchWithRetry_httpError_final_witness :
    fetchWithRetry (srvConstErr 500 "x") 3 =
      .thrown (httpErrMsg ⟨500, "x"⟩) [1000, 2000] := by
  have h := fetchWithRetry_httpError_final 500 "x" 2 (by omega) (by omega)
  rw [h]
  decide

/-- C8: with a verifying signature, `verifyJWT` fails with `expired` exactly
when the current time (ms) exceeds the payload's expiry (s), and a token
signed with `ttl = 1` second fails with `expired` when verified 2 seconds
(2000 ms) after signing, whatever the signing time and role. -/
theorem verifyJWT_expired_iff (p : JwtPayload) (nowMs : Nat) :
    (verifyJWT true p nowMs = .expired ↔ p.exp * 1000 < nowMs) ∧
    (∀ r tMs, verifyJWT true (signJWT r tMs 1) (tMs + 2000) = .expired) := by
  constructor
  · by_cases h : p.exp * 1000 < nowMs <;> simp [verifyJWT, h]
  · intro r tMs
    have hd : tMs / 1000 * 1000 ≤ tMs := Nat.div_mul_le_self tMs 1000
    simp only [verifyJWT, signJWT, Bool.not_true, Bool.false_eq_true, if_false]
    rw [if_pos (by omega)]

/-- C9: the broadcast fan-out is total; every non-sender session whose send
succeeds receives the message — also those coming after a failing one — and
every non-sender whose send throws is logged, never aborting the loop or
surfacing to the sender. -/
theorem broadcast_isolates_failures (sessions : List Session) (exceptId : Nat) :
    (broadcast sessions exceptId).delivered =
      (sessions.filter fun s => s.id != exceptId && s.sendOk).map Session.id ∧
    (broadcast sessions exceptId).logged =
      (sessions.filter fun s => s.id != exceptId && !s.sendOk).map Session.id := by
  induction sessions with
  | nil => simp [broadcast]
  | cons s rest ih =>
    by_cases he : s.id = exceptId
    · simp [broadcast, he, ih]
    · by_cases hs : s.sendOk = true <;>
        simp [broadcast, he, hs, List.filter_cons, ih]

lemma sumSizes_cons (o : StoredObj) (l : List StoredObj) :
    sumSizes (o :: l) = o.size + sumSizes l := by
  simp [sumSizes]

lemma sumSizes_insertByUpload (o : StoredObj) (l : List StoredObj) :
    sumSizes (insertByUpload o l) = o.size + sumSizes l := by
  induction l with
  | nil => simp [insertByUpload, sumSizes]
  | cons x xs ih =>
    by_cases h : o.uploaded ≤ x.uploaded
    · simp [insertByUpload, h, sumSizes_cons]
    · simp only [insertByUpload, h, if_false, sumSizes_cons, ih]
      omega

lemma sumSizes_sortByUpload (l : List StoredObj) :
    sumSizes (sortByUpload l) = sumSizes l := by
  induction l with
  | nil => rfl
  | cons x xs ih =>
    simp [sortByUpload, sumSizes_insertByUpload, ih, sumSizes_cons]

lemma insertByUpload_perm (o : StoredObj) (l : List StoredObj) :
    List.Perm (insertByUpload o l) (o :: l) := by
  induction l with
  | nil => simp [insertByUpload]
  | cons x xs ih =>
    by_cases h : o.uploaded ≤ x.uploaded
    · simp [insertByUpload, h]
    · simp only [insertByUpload, h, if_false]
      exact (List.Perm.cons x ih).trans (List.Perm.swap o x xs)

lemma sortByUpload_perm (l : List StoredObj) :
    List.Perm (sortByUpload l) l := by
  induction l with
  | nil => simp [sortByUpload]
  | cons x xs ih =>
    exact (insertByUpload_perm x (sortByUpload xs)).trans (List.Perm.cons x ih)

lemma pairwise_insertByUpload (o : StoredObj) (l : List StoredObj)
    (h : List.Pairwise (fun a b => a.uploaded ≤ b.uploaded) l) :
    List.Pairwise (fun a b => a.uploaded ≤ b.uploaded) (insertByUpload o l) := by
  induction l with
  | nil => simp [insertByUpload]
  | cons x xs ih =>
    rw [List.pairwise_cons] at h
    by_cases ho : o.uploaded ≤ x.uploaded
    · simp only [insertByUpload, ho, if_true]
      refine List.Pairwise.cons ?_ (List.Pairwise.cons h.1 h.2)
      intro y hy
      rcases List.mem_cons.mp hy with hyx | hyxs
      · exact hyx ▸ ho
      · exact ho.trans (h.1 y hyxs)
    · simp only [insertByUpload, ho, if_false]
      refine List.Pairwise.cons ?_ (ih h.2)
      intro y hy
      rcases List.mem_cons.mp ((insertByUpload_perm o xs).mem_iff.mp hy) with hyo | hyxs
      · rw [hyo]; omega
      · exact h.1 y hyxs

lemma pairwise_sortByUpload (l : List StoredObj) :
    List.Pairwise (fun a b => a.uploaded ≤ b.uploaded) (sortByUpload l) := by
  induction l with
  | nil => simp [sortByUpload]
  | cons x xs ih => exact pairwise_insertByUpload x (sortByUpload xs) ih

lemma evictLoop_take_drop (maxBytes : Nat) :
    ∀ (l : List StoredObj) (total : Nat),
      (evictLoop maxBytes total l).deleted =
        l.take (evictLoop maxBytes total l).deletedCount ∧
      (evictLoop maxBytes total l).remaining =
        l.drop (evictLoop maxBytes total l).deletedCount := by
  intro l
  induction l with
  | nil => intro total; simp [evictLoop]
  | cons o rest ih =>
    intro total
    by_cases h : total ≤ maxBytes
    · simp [evictLoop, h]
    · have := ih (total - o.size)
      simp only [evictLoop, h, if_false]
      exact ⟨by rw [List.take_succ_cons, this.1], by rw [List.drop_succ_cons, this.2]⟩

lemma evictLoop_remaining_le (maxBytes inc : Nat) :
    ∀ (l : List StoredObj) (total : Nat), total = inc + sumSizes l →
      sumSizes (evictLoop maxBytes total l).remaining ≤ maxBytes := by
  intro l
  induction l with
  | nil => intro total _; simp [evictLoop, sumSizes]
  | cons o rest ih =>
    intro total ht
    rw [sumSizes_cons] at ht
    by_cases h : total ≤ maxBytes
    · simp only [evictLoop, h, if_true]
      rw [sumSizes_cons]
      omega
    · simp only [evictLoop, h, if_false]
      exact ih (total - o.size) (by omega)

lemma evictLoop_minimal (maxBytes inc : Nat) :
    ∀ (l : List StoredObj) (total : Nat), total = inc + sumSizes l →
      ∀ k, k < (evictLoop maxBytes total l).deletedCount →
        maxBytes < inc + sumSizes (l.drop k) := by
  intro l
  induction l with
  | nil => intro total _ k hk; simp [evictLoop] at hk
  | cons o rest ih =>
    intro total ht k hk
    rw [sumSizes_cons] at ht
    by_cases h : total ≤ maxBytes
    · simp [evictLoop, h] at hk
    · simp only [evictLoop, h, if_false] at hk
      match k with
      | 0 =>
        rw [List.drop_zero, sumSizes_cons]
        omega
      | k + 1 =>
        rw [List.drop_succ_cons]
        exact ih (total - o.size) (by omega) k (by omega)

/-- C2: `enforceQuota` over any paged bucket listing: when the existing
sizes plus the incoming bytes fit the budget it deletes nothing and
returns the zero-effect result, and in every case the objects left in the
bucket afterwards total at most `maxBytes`. -/
theorem enforceQuota_budget (pages : List (List StoredObj)) (maxBytes inc : Nat) :
    (inc + sumSizes pages.flatten ≤ maxBytes →
      enforceQuota pages maxBytes inc = ⟨0, 0, [], pages.flatten⟩) ∧
    sumSizes (enforceQuota pages maxBytes inc).remaining ≤ maxBytes := by
  constructor
  · intro h
    simp [enforceQuota, h]
  · by_cases h : inc + sumSizes pages.flatten ≤ maxBytes
    · simp only [enforceQuota, h, if_true]
      omega
    · simp only [enforceQuota, h, if_false]
      exact evictLoop_remaining_le maxBytes inc _ _ (by rw [sumSizes_sortByUpload])

/-- C3: whenever eviction is required, the deleted objects are exactly an
initial segment of the listing sorted ascending by upload time (the sort
really is ascending and a permutation of the listing), and every single
deletion was necessary: with any fewer deletions the running total would
still exceed the budget. -/
theorem enforceQuota_oldest_first (pages : List (List StoredObj)) (maxBytes inc : Nat) :
    (maxBytes < inc + sumSizes pages.flatten →
      (enforceQuota pages maxBytes inc).deleted =
        (sortByUpload pages.flatten).take (enforceQuota pages maxBytes inc).deletedCount ∧
      (enforceQuota pages maxBytes inc).remaining =
        (sortByUpload pages.flatten).drop (enforceQuota pages maxBytes inc).deletedCount ∧
      (∀ k, k < (enforceQuota pages maxBytes inc).deletedCount →
        maxBytes < inc + sumSizes ((sortByUpload pages.flatten).drop k))) ∧
    List.Pairwise (fun a b => a.uploaded ≤ b.uploaded) (sortByUpload pages.flatten) ∧
    List.Perm (sortByUpload pages.flatten) pages.flatten := by
  refine ⟨?_, pairwise_sortByUpload _, sortByUpload_perm _⟩
  intro h
  have hn : ¬ (inc + sumSizes pages.flatten ≤ maxBytes) := by omega
  have htot : inc + sumSizes pages.flatten =
      inc + sumSizes (sortByUpload pages.flatten) := by
    rw [sumSizes_sortByUpload]
  simp only [enforceQuota, hn, if_false]
  refine ⟨(evictLoop_take_drop maxBytes _ _).1, (evictLoop_take_drop maxBytes _ _).2, ?_⟩
  exact evictLoop_minimal maxBytes inc _ _ htot

/-- C4: a range with a numeric `start` in `[0, size)` and `start ≤ end` is
served with status 206, `Content-Range: bytes start-e/size` and
`Content-Length: e - start + 1`, where `e` is `end` clamped to `size - 1`
(the clamp value also standing in when `end` is omitted), and exactly
`[start, e]` is fetched from the store. -/
theorem serveMedia_range_206 (size : Nat) (start : Int) (endP : Option Int)
    (h0 : 0 ≤ start) (hlt : start < (size : Int))
    (hse : ∀ ev, endP = some ev → start ≤ ev) :
    serveMediaRange size (some start) endP true =
      ⟨206,
        some ("bytes " ++ toString start ++ "-" ++
          toString (min (endP.getD ((size : Int) - 1)) ((size : Int) - 1)) ++ "/" ++
          toString size),
        some (min (endP.getD ((size : Int) - 1)) ((size : Int) - 1) - start + 1),
        some start,
        some (min (endP.getD ((size : Int) - 1)) ((size : Int) - 1) - start + 1)⟩ := by
  have hcond : ¬ (start < 0 ∨ (size : Int) ≤ start) := by omega
  cases endP with
  | none => simp [serveMediaRange, hcond]
  | some e => simp [serveMediaRange, hcond]

/-- Witness for C4: `bytes=0-99` on a 1000-byte object. -/
theorem serveMedia_range_206_witness :
    serveMediaRange 1000 (some 0) (some 99) true =
      ⟨206, some "bytes 0-99/1000", some 100, some 0, some 100⟩ := by
  have h := serveMedia_range_206 1000 0 (some 99) (by omega) (by omega)
    (by intro ev hev; cases hev; omega)
  rw [h]
  decide

/-- C5: a range whose `start` is not a number, is negative, or is at least
the object size is answered 416 with `Content-Range: bytes */size`. -/
theorem serveMedia_range_416 (size : Nat) (startP endP : Option Int) (rangedOk : Bool)
    (h : startP = none ∨ ∃ s, startP = some s ∧ (s < 0 ∨ (size : Int) ≤ s)) :
    serveMediaRange size startP endP rangedOk =
      ⟨416, some ("bytes */" ++ toString size), none, none, none⟩ := by
  rcases h with hn | ⟨s, hs, hbad⟩
  · subst hn
    simp [serveMediaRange, range416]
  · subst hs
    simp [serveMediaRange, range416, hbad]

/-- Witness for C5: `bytes=2000-` on a 1000-byte object. -/
theorem serveMedia_range_416_witness :
    serveMediaRange 1000 (some 2000) none true =
      ⟨416, some "bytes */1000", none, none, none⟩ := by
  have h := serveMedia_range_416 1000 (some 2000) none true
    (Or.inr ⟨2000, rfl, by omega⟩)
  rw [h]
  decide

/-- C10: when `start` is valid but `end < start`, validation (which checks
only `start`) lets the range through: the response is a 206 whose
`Content-Length` is `end - start + 1`, a zero or negative number. -/
theorem serveMedia_end_lt_start (size : Nat) (start endv : Int)
    (h0 : 0 ≤ start) (hlt : start < (size : Int)) (hend : endv < start) :
    (serveMediaRange size (some start) (some endv) true).status = 206 ∧
    (serveMediaRange size (some start) (some endv) true).contentLength =
      some (endv - start + 1) ∧
    endv - start + 1 ≤ 0 := by
  have hcond : ¬ (start < 0 ∨ (size : Int) ≤ start) := by omega
  have hmin : min endv ((size : Int) - 1) = endv := min_eq_left (by omega)
  refine ⟨?_, ?_, by omega⟩ <;> simp [serveMediaRange, hcond, hmin]

/-- Witness for C10: `bytes=10-5` on a 1000-byte object. -/
theorem serveMedia_end_lt_start_witness :
    (serveMediaRange 1000 (some 10) (some 5) true).status = 206 ∧
    (serveMediaRange 1000 (some 10) (some 5) true).contentLength = some (-4) ∧
    (5 : Int) - 10 + 1 ≤ 0 := by
  have h := serveMedia_end_lt_start 1000 10 5 (by omega) (by omega) (by omega)
  refine ⟨h.1, ?_, h.2.2⟩
  rw [h.2.1]
  decide

lemma lookupField_append {α : Type} (l1 l2 : List (String × α)) (k : String) :
    lookupField (l1 ++ l2) k = firstSome (lookupField l1 k) (lookupField l2 k) := by
  induction l1 with
  | nil => simp [lookupField, firstSome]
  | cons kv rest ih =>
    obtain ⟨k0, v⟩ := kv
    by_cases h : k0 = k
    · simp [lookupField, h, firstSome]
    · simp [lookupField, h, ih]

lemma lookupField_setField {α : Type} (st : List (String × α)) (k0 : String) (v0 : α)
    (k : String) :
    lookupField (setField st k0 v0) k =
      if k0 = k then some v0 else lookupField st k := by
  induction st with
  | nil => simp [setField, lookupField]
  | cons kv rest ih =>
    obtain ⟨k1, v1⟩ := kv
    by_cases h1 : k1 = k0
    · subst h1
      by_cases h2 : k1 = k <;> simp [setField, lookupField, h2]
    · by_cases h2 : k1 = k
      · subst h2
        have h0 : ¬ (k0 = k1) := fun hh => h1 hh.symm
        simp [setField, h1, lookupField, h0]
      · simp [setField, h1, lookupField, h2, ih]

lemma lookupField_assignFields {α : Type} :
    ∀ (upd st : List (String × α)) (k : String),
      lookupField (assignFields st upd) k =
        firstSome (lookupField upd.reverse k) (lookupField st k) := by
  intro upd
  induction upd with
  | nil =>
    intro st k
    simp [assignFields, lookupField, firstSome]
  | cons kv u ih =>
    intro st k
    obtain ⟨k0, v0⟩ := kv
    have hstep : assignFields st ((k0, v0) :: u) = assignFields (setField st k0 v0) u :=
      rfl
    rw [hstep, ih, List.reverse_cons, lookupField_append, lookupField_setField]
    cases hl : lookupField u.reverse k <;> by_cases hk : k0 = k <;>
      simp [firstSome, lookupField, hk, hl]

/-- C1: after each message of any update sequence, the actor's canonical
state is the field-wise merge of the previous state with that update — per
field the update's value wins when present and the old value survives when
absent (last writer wins per field, no record replace) — and exactly that
merged state is what `persist` has written to durable storage when the
handler finishes. -/
theorem room_merge_persist {α : Type} (room : RoomDO α)
    (upds : List (List (String × α))) (i : Nat) (h : i < upds.length) :
    (runUpdates room ((upds.take (i + 1)).map RoomMsg.ok)).stateData =
      assignFields (runUpdates room ((upds.take i).map RoomMsg.ok)).stateData upds[i] ∧
    (runUpdates room ((upds.take (i + 1)).map RoomMsg.ok)).storage =
      some ((runUpdates room ((upds.take (i + 1)).map RoomMsg.ok)).stateData) ∧
    ∀ k, lookupField (runUpdates room ((upds.take (i + 1)).map RoomMsg.ok)).stateData k =
      firstSome (lookupField (upds[i]).reverse k)
        (lookupField (runUpdates room ((upds.take i).map RoomMsg.ok)).stateData k) := by
  have htake : upds.take (i + 1) = upds.take i ++ [upds[i]] := by
    rw [List.take_succ]
    congr 1
    rw [List.getElem?_eq_getElem h]
    rfl
  rw [htake]
  simp only [runUpdates, List.map_append, List.foldl_append, List.map_cons,
    List.map_nil, List.foldl_cons, List.foldl_nil]
  refine ⟨rfl, rfl, ?_⟩
  intro k
  exact lookupField_assignFields upds[i] _ k

/-- Witness for C1: two updates on a concrete room; the second update
overwrites `timestamp`, adds `mainUrl`, leaves `paused` intact, and the
merged record is what sits in storage. -/
theorem room_merge_persist_witness :
    (runUpdates roomW ((updsW.take 2).map RoomMsg.ok)).stateData =
      [("timestamp", 9), ("paused", 1), ("mainUrl", 7)] ∧
    (runUpdates roomW ((updsW.take 2).map RoomMsg.ok)).storage =
      some [("timestamp", 9), ("paused", 1), ("mainUrl", 7)] := by
  have h := room_merge_persist roomW updsW 1 (by decide)
  refine ⟨?_, ?_⟩
  · rw [h.1]
    decide
  · rw [h.2.1]
    rw [h.1]
    decide

end StreamDeck
